import Mathlib

/-!
Shallow embedding of the Mergington High School activities service
(`src/app.py`): the email validator `validate_email` built on
`EMAIL_PATTERN = re.compile(r'^[a-zA-Z0-9._%+-]+@[a-zA-Z0-9.-]+\.[a-zA-Z]{2,}$')`,
the in-memory registry `activities`, and the two mutating endpoints
`signup_for_activity` and `unregister_from_activity`.
-/

namespace MergingtonApp

/-- Characters accepted by the regex class `[a-zA-Z0-9._%+-]`
(the local part of `EMAIL_PATTERN`). -/
def isLocalChar (c : Char) : Bool :=
  c.isAlphanum || c = '.' || c = '_' || c = '%' || c = '+' || c = '-'

/-- Characters accepted by the regex class `[a-zA-Z0-9.-]`
(the domain part of `EMAIL_PATTERN`). -/
def isDomainChar (c : Char) : Bool :=
  c.isAlphanum || c = '.' || c = '-'

/-- Split a character list at its first `'@'`: `splitLocal cs = some (l, r)`
exactly when `cs = l ++ '@' :: r` and `l` contains no `'@'`.  Mirrors the fact
that in `EMAIL_PATTERN` the local-part class excludes `'@'`, so any match must
split at the first `'@'` of the subject string. -/
def splitLocal : List Char → Option (List Char × List Char)
  | [] => none
  | c :: cs =>
      if c = '@' then some ([], cs)
      else (splitLocal cs).map (fun p => (c :: p.1, p.2))

/-- Does position `m` of `r` carry the literal `'.'` of the pattern, with a
non-empty all-domain-chars prefix before it and an alphabetic tail of length
at least 2 after it?  One candidate split for matching
`[a-zA-Z0-9.-]+\.[a-zA-Z]{2,}` against `r`. -/
def dotSplitOk (r : List Char) (m : Nat) : Bool :=
  decide (1 ≤ m) && (r.take m).all isDomainChar && (r[m]? == some '.') &&
    decide (2 ≤ (r.drop (m + 1)).length) && (r.drop (m + 1)).all Char.isAlpha

/-- Matching of the regex fragment `[a-zA-Z0-9.-]+\.[a-zA-Z]{2,}` (what follows
the `'@'` in `EMAIL_PATTERN`) against all of `r`: some split position works. -/
def restOk (r : List Char) : Bool :=
  (List.range r.length).any (dotSplitOk r)

/-- Matching of the full regex `^[a-zA-Z0-9._%+-]+@[a-zA-Z0-9.-]+\.[a-zA-Z]{2,}$`
against all of `cs`, with `$` read as "very end of the string". -/
def strictMatch (cs : List Char) : Bool :=
  match splitLocal cs with
  | none => false
  | some (l, r) => (!l.isEmpty) && l.all isLocalChar && restOk r

/-- The test `EMAIL_PATTERN.match(email) is not None` from the source.  In
Python `re`, the anchor `$` matches at the end of the string or just before a
single newline character at the end of the string, so a match exists exactly
when the pattern covers the whole string or the whole string minus one final
`'\n'`. -/
def EMAIL_PATTERN_match (cs : List Char) : Bool :=
  strictMatch cs || ((cs.getLast? == some '\n') && strictMatch cs.dropLast)

/-- The function `validate_email` from `src/app.py`: reject the empty string
(`not email`) and strings longer than 254 characters, otherwise test
`EMAIL_PATTERN`. -/
def validate_email (s : String) : Bool :=
  if s.length = 0 ∨ s.length > 254 then false
  else EMAIL_PATTERN_match s.data

/-- Modelled from the spec's words (for comparison with the code's
`validate_email`): the subject string decomposes as one or more characters of
`[a-zA-Z0-9._%+-]`, then `'@'`, then one or more characters of `[a-zA-Z0-9.-]`,
then a literal `'.'`, then two or more alphabetic characters — anchored at both
the start and the very end of the string. -/
def EmailPatternSpec (cs : List Char) : Prop :=
  ∃ l d t, cs = l ++ '@' :: (d ++ '.' :: t) ∧
    l ≠ [] ∧ (∀ c ∈ l, isLocalChar c) ∧
    d ≠ [] ∧ (∀ c ∈ d, isDomainChar c) ∧
    2 ≤ t.length ∧ (∀ c ∈ t, Char.isAlpha c)

/-- One value of the in-memory activity database: `description`, `schedule`,
`max_participants` and the ordered `participants` list. -/
structure Activity where
  description : String
  schedule : String
  max_participants : Nat
  participants : List String
deriving DecidableEq, Repr

/-- The activity database is a Python dict: here, an insertion-ordered
association list from activity name to `Activity`. -/
abbrev Registry := List (String × Activity)

/-- The five `HTTPException`s raised by the two endpoints. -/
inductive ApiError where
  | InvalidEmail
  | ActivityNotFound
  | AtCapacity
  | AlreadyEnrolled
  | NotEnrolled
deriving DecidableEq, Repr

/-- The `status_code` of each raised `HTTPException`. -/
def ApiError.statusCode : ApiError → Nat
  | .ActivityNotFound => 404
  | _ => 400

/-- The `detail` string of each raised `HTTPException`. -/
def ApiError.detail : ApiError → String
  | .InvalidEmail => "Invalid email format"
  | .ActivityNotFound => "Activity not found"
  | .AtCapacity => "Activity is at maximum capacity"
  | .AlreadyEnrolled => "Student is already signed up"
  | .NotEnrolled => "Student is not signed up for this activity"

/-- Dict read `activities[activity_name]` (with the preceding
`activity_name not in activities` test folded into the `Option`). -/
def lookupActivity (reg : Registry) (name : String) : Option Activity :=
  (reg.find? (fun p => p.1 == name)).map Prod.snd

/-- In-place mutation of the activity stored under `name`: a Python dict has
at most one slot per key, so replacing the value at the first matching key
models `activities[activity_name]["participants"] = ...`. -/
def updateActivity (reg : Registry) (name : String) (a : Activity) : Registry :=
  match reg with
  | [] => []
  | (k, v) :: rest =>
      if k == name then (k, a) :: rest
      else (k, v) :: updateActivity rest name a

/-- The seeded `activities` dict from `src/app.py`. -/
def activities : Registry :=
  [("Soccer Team",
    { description := "Join the school soccer team and compete in local tournaments",
      schedule := "Tuesdays and Thursdays, 4:00 PM - 5:30 PM",
      max_participants := 25,
      participants := ["alex@mergington.edu", "sarah@mergington.edu"] }),
   ("Basketball Team",
    { description := "Practice basketball skills and participate in inter-school games",
      schedule := "Mondays and Wednesdays, 4:00 PM - 5:30 PM",
      max_participants := 15,
      participants := ["james@mergington.edu", "lisa@mergington.edu"] }),
   ("Art Club",
    { description := "Explore various art mediums including painting, drawing, and sculpture",
      schedule := "Thursdays, 3:30 PM - 5:00 PM",
      max_participants := 18,
      participants := ["emily@mergington.edu", "david@mergington.edu"] }),
   ("Drama Club",
    { description := "Perform in school plays and develop acting and stage skills",
      schedule := "Mondays and Fridays, 3:30 PM - 5:00 PM",
      max_participants := 20,
      participants := ["anna@mergington.edu", "robert@mergington.edu"] }),
   ("Debate Team",
    { description := "Develop public speaking and argumentation skills through competitive debates",
      schedule := "Wednesdays, 3:30 PM - 5:00 PM",
      max_participants := 16,
      participants := ["william@mergington.edu", "elizabeth@mergington.edu"] }),
   ("Science Olympiad",
    { description := "Compete in science and engineering challenges at regional competitions",
      schedule := "Tuesdays, 3:30 PM - 5:00 PM",
      max_participants := 24,
      participants := ["benjamin@mergington.edu", "charlotte@mergington.edu"] }),
   ("Chess Club",
    { description := "Learn strategies and compete in chess tournaments",
      schedule := "Fridays, 3:30 PM - 5:00 PM",
      max_participants := 12,
      participants := ["michael@mergington.edu", "daniel@mergington.edu"] }),
   ("Programming Class",
    { description := "Learn programming fundamentals and build software projects",
      schedule := "Tuesdays and Thursdays, 3:30 PM - 4:30 PM",
      max_participants := 20,
      participants := ["emma@mergington.edu", "sophia@mergington.edu"] }),
   ("Gym Class",
    { description := "Physical education and sports activities",
      schedule := "Mondays, Wednesdays, Fridays, 2:00 PM - 3:00 PM",
      max_participants := 30,
      participants := ["john@mergington.edu", "olivia@mergington.edu"] })]

/-- Endpoint `GET /activities`: returns the full current registry. -/
def get_activities (reg : Registry) : Registry := reg

/-- Endpoint `POST /activities/{activity_name}/signup` from `src/app.py`.
The result pairs the post-call registry (in Python the dict is mutated in
place; raising before the mutation leaves it untouched) with either the
raised error or the returned message. -/
def signup_for_activity (reg : Registry) (activity_name email : String) :
    Registry × Except ApiError String :=
  if ¬ validate_email email then
    (reg, Except.error ApiError.InvalidEmail)
  else
    match lookupActivity reg activity_name with
    | none => (reg, Except.error ApiError.ActivityNotFound)
    | some activity =>
        if activity.participants.length ≥ activity.max_participants then
          (reg, Except.error ApiError.AtCapacity)
        else if email ∈ activity.participants then
          (reg, Except.error ApiError.AlreadyEnrolled)
        else
          (updateActivity reg activity_name
             { activity with participants := activity.participants ++ [email] },
           Except.ok ("Signed up " ++ email ++ " for " ++ activity_name))

/-- Endpoint `DELETE /activities/{activity_name}/signup` from `src/app.py`.
Python's `list.remove` drops the first occurrence, which `List.erase`
models. -/
def unregister_from_activity (reg : Registry) (activity_name email : String) :
    Registry × Except ApiError String :=
  if ¬ validate_email email then
    (reg, Except.error ApiError.InvalidEmail)
  else
    match lookupActivity reg activity_name with
    | none => (reg, Except.error ApiError.ActivityNotFound)
    | some activity =>
        if email ∉ activity.participants then
          (reg, Except.error ApiError.NotEnrolled)
        else
          (updateActivity reg activity_name
             { activity with participants := activity.participants.erase email },
           Except.ok ("Unregistered " ++ email ++ " from " ++ activity_name))

/-- One client call against the shared registry. -/
inductive Op where
  | signup (activity_name email : String)
  | unregister (activity_name email : String)

/-- The registry after one call: the post-call registry of the endpoint,
whether the call succeeded or raised. -/
def applyOp (reg : Registry) : Op → Registry
  | .signup n e => (signup_for_activity reg n e).1
  | .unregister n e => (unregister_from_activity reg n e).1

/-- The registry after a finite sequence of calls. -/
def runOps (reg : Registry) (ops : List Op) : Registry :=
  ops.foldl applyOp reg

/-- Capacity invariant: every activity's roster fits its capacity. -/
def CapacityOk (reg : Registry) : Prop :=
  ∀ p ∈ reg, p.2.participants.length ≤ p.2.max_participants

/-- Uniqueness invariant: no activity's roster repeats an email
(case-sensitive exact string equality). -/
def NoDupOk (reg : Registry) : Prop :=
  ∀ p ∈ reg, p.2.participants.Nodup

/-- Frame relation between the registry before and after a call naming
`name`: entries correspond pairwise; each keeps its key, description, schedule
and capacity; and every entry whose key is not `name` is fully unchanged. -/
def FrameOk (name : String) (reg reg' : Registry) : Prop :=
  List.Forall₂ (fun p q => q.1 = p.1 ∧ q.2.description = p.2.description ∧
    q.2.schedule = p.2.schedule ∧ q.2.max_participants = p.2.max_participants ∧
    (p.1 ≠ name → q = p)) reg reg'

/-- An activity that is at capacity (capacity 2, two participants). -/
def fullChessClub : Activity :=
  { description := "Learn strategies and compete in chess tournaments",
    schedule := "Fridays, 3:30 PM - 5:00 PM",
    max_participants := 2,
    participants := ["michael@mergington.edu", "daniel@mergington.edu"] }

/-- Registry used to witness C4: a single activity full at capacity 2. -/
def fullClubRegistry : Registry := [("Chess Club", fullChessClub)]

theorem splitLocal_eq_some (cs l r : List Char) :
    splitLocal cs = some (l, r) ↔ cs = l ++ '@' :: r ∧ '@' ∉ l := by
  induction cs generalizing l r with
  | nil =>
    simp [splitLocal]
  | cons c cs ih =>
    by_cases hc : c = '@'
    · subst hc
      rw [splitLocal, if_pos rfl]
      constructor
      · intro h
        injection h with h'
        injection h' with hl hr
        subst hl
        subst hr
        simp
      · rintro ⟨heq, hnot⟩
        cases l with
        | nil =>
          simp only [List.nil_append, List.cons.injEq] at heq
          rw [heq.2]
        | cons a l' =>
          simp only [List.cons_append, List.cons.injEq] at heq
          exact absurd (by rw [heq.1]; exact List.mem_cons_self a l') hnot
    · rw [splitLocal, if_neg hc]
      simp only [Option.map_eq_some']
      constructor
      · rintro ⟨⟨l₀, r₀⟩, hsplit, heq⟩
        injection heq with hl hr
        subst hl
        subst hr
        obtain ⟨hcs, hnot⟩ := (ih l₀ _).mp hsplit
        constructor
        · rw [hcs]
          simp
        · intro hmem
          rcases List.mem_cons.mp hmem with h | h
          · exact hc h.symm
          · exact hnot h
      · rintro ⟨heq, hnot⟩
        cases l with
        | nil =>
          simp only [List.nil_append, List.cons.injEq] at heq
          exact absurd heq.1 hc
        | cons a l' =>
          simp only [List.cons_append, List.cons.injEq] at heq
          obtain ⟨rfl, hcs⟩ := heq
          exact ⟨(l', r), (ih l' r).mpr ⟨hcs, fun h => hnot (List.mem_cons_of_mem _ h)⟩, rfl⟩

theorem restOk_iff (r : List Char) :
    restOk r = true ↔ ∃ d t, r = d ++ '.' :: t ∧ d ≠ [] ∧
      (∀ c ∈ d, isDomainChar c) ∧ 2 ≤ t.length ∧ (∀ c ∈ t, Char.isAlpha c) := by
  constructor
  · intro h
    obtain ⟨m, _hm, hok⟩ := List.any_eq_true.mp h
    unfold dotSplitOk at hok
    simp only [Bool.and_eq_true, decide_eq_true_eq, beq_iff_eq] at hok
    obtain ⟨⟨⟨⟨h1, hdom⟩, hdot⟩, hlen⟩, halpha⟩ := hok
    obtain ⟨hmlt, hget⟩ := List.getElem?_eq_some.mp hdot
    refine ⟨r.take m, r.drop (m + 1), ?_, ?_, ?_, hlen, ?_⟩
    · conv_lhs => rw [← List.take_append_drop m r]
      rw [List.drop_eq_getElem_cons hmlt, hget]
    · intro hnil
      have hlen0 : (r.take m).length = 0 := by rw [hnil]; rfl
      rw [List.length_take, min_eq_left (le_of_lt hmlt)] at hlen0
      omega
    · intro c hc
      exact List.all_eq_true.mp hdom c hc
    · intro c hc
      exact List.all_eq_true.mp halpha c hc
  · rintro ⟨d, t, rfl, hdne, hdom, htlen, halpha⟩
    apply List.any_eq_true.mpr
    have hsingle : d ++ '.' :: t = (d ++ ['.']) ++ t := by simp
    refine ⟨d.length, ?_, ?_⟩
    · apply List.mem_range.mpr
      simp only [List.length_append, List.length_cons]
      omega
    · unfold dotSplitOk
      have htake : (d ++ '.' :: t).take d.length = d := List.take_left d _
      have hdrop : (d ++ '.' :: t).drop (d.length + 1) = t := by
        rw [hsingle, show d.length + 1 = (d ++ ['.']).length by simp, List.drop_left]
      have hget : (d ++ '.' :: t)[d.length]? = some '.' := by
        rw [List.getElem?_append_right (le_refl d.length)]
        simp
      have hd1 : 1 ≤ d.length := by
        cases d with
        | nil => exact absurd rfl hdne
        | cons a d' => simp
      rw [htake, hdrop, hget]
      simp only [List.all_eq_true, Bool.and_eq_true, decide_eq_true_eq, beq_self_eq_true,
        Bool.true_and, Bool.and_true]
      exact ⟨⟨⟨hd1, hdom⟩, htlen⟩, halpha⟩

theorem strictMatch_iff (cs : List Char) :
    strictMatch cs = true ↔ EmailPatternSpec cs := by
  constructor
  · intro h
    unfold strictMatch at h
    cases hsplit : splitLocal cs with
    | none =>
      rw [hsplit] at h
      exact absurd h (by simp)
    | some p =>
      obtain ⟨l, r⟩ := p
      rw [hsplit] at h
      simp only [Bool.and_eq_true, Bool.not_eq_true'] at h
      obtain ⟨⟨hlne, hlocal⟩, hrest⟩ := h
      obtain ⟨hcs, _⟩ := (splitLocal_eq_some cs l r).mp hsplit
      obtain ⟨d, t, hr, hdne, hdom, htlen, halpha⟩ := (restOk_iff r).mp hrest
      have hlne' : l ≠ [] := by
        intro h
        rw [h] at hlne
        simp at hlne
      exact ⟨l, d, t, by rw [hcs, hr], hlne',
        fun c hc => List.all_eq_true.mp hlocal c hc, hdne, hdom, htlen, halpha⟩
  · rintro ⟨l, d, t, rfl, hlne, hlocal, hdne, hdom, htlen, halpha⟩
    have hnotat : '@' ∉ l := fun hmem => absurd (hlocal '@' hmem) (by decide)
    have hsplit : splitLocal (l ++ '@' :: (d ++ '.' :: t)) = some (l, d ++ '.' :: t) :=
      (splitLocal_eq_some _ l _).mpr ⟨rfl, hnotat⟩
    unfold strictMatch
    rw [hsplit]
    simp only [Bool.and_eq_true, Bool.not_eq_true']
    refine ⟨⟨?_, List.all_eq_true.mpr hlocal⟩, ?_⟩
    · cases l with
      | nil => exact absurd rfl hlne
      | cons a l' => rfl
    · exact (restOk_iff _).mpr ⟨d, t, rfl, hdne, hdom, htlen, halpha⟩

theorem lookupActivity_cons (k : String) (v : Activity) (rest : Registry) (n : String) :
    lookupActivity ((k, v) :: rest) n =
      if (k == n) = true then some v else lookupActivity rest n := by
  by_cases hk : (k == n) = true
  · simp [lookupActivity, List.find?_cons, hk]
  · simp [lookupActivity, List.find?_cons, hk]

theorem updateActivity_cons (k : String) (v : Activity) (rest : Registry)
    (n : String) (a : Activity) :
    updateActivity ((k, v) :: rest) n a =
      if (k == n) = true then (k, a) :: rest else (k, v) :: updateActivity rest n a := rfl

/-- Every entry of the updated registry is an old entry or carries the new
activity value. -/
theorem mem_updateActivity {reg : Registry} {n : String} {a : Activity} :
    ∀ q ∈ updateActivity reg n a, q ∈ reg ∨ q.2 = a := by
  induction reg with
  | nil =>
    intro q hq
    simp [updateActivity] at hq
  | cons p rest ih =>
    obtain ⟨k, v⟩ := p
    intro q hq
    rw [updateActivity_cons] at hq
    by_cases hk : (k == n) = true
    · rw [if_pos hk] at hq
      rcases List.mem_cons.mp hq with h | h
      · right
        rw [h]
      · exact Or.inl (List.mem_cons_of_mem _ h)
    · rw [if_neg hk] at hq
      rcases List.mem_cons.mp hq with h | h
      · exact Or.inl (h ▸ List.mem_cons_self _ _)
      · rcases ih q h with h' | h'
        · exact Or.inl (List.mem_cons_of_mem _ h')
        · exact Or.inr h'

/-- A successful lookup returns an entry of the registry. -/
theorem lookupActivity_mem {reg : Registry} {n : String} {a : Activity}
    (h : lookupActivity reg n = some a) : (n, a) ∈ reg := by
  unfold lookupActivity at h
  obtain ⟨p, hfind, hsnd⟩ := Option.map_eq_some'.mp h
  have hmem := List.mem_of_find?_eq_some hfind
  have hpred := List.find?_some hfind
  have hkey : p.1 = n := by simpa using hpred
  have : p = (n, a) := by
    obtain ⟨k, v⟩ := p
    simp only at hkey hsnd
    rw [hkey, hsnd]
  exact this ▸ hmem

/-- Updating a present key makes lookup return the new value. -/
theorem lookupActivity_updateActivity_self {reg : Registry} {n : String} {a : Activity}
    (a' : Activity) (h : lookupActivity reg n = some a) :
    lookupActivity (updateActivity reg n a') n = some a' := by
  induction reg with
  | nil => simp [lookupActivity] at h
  | cons p rest ih =>
    obtain ⟨k, v⟩ := p
    rw [lookupActivity_cons] at h
    rw [updateActivity_cons]
    by_cases hk : (k == n) = true
    · rw [if_pos hk, lookupActivity_cons, if_pos hk]
    · rw [if_neg hk] at h
      rw [if_neg hk, lookupActivity_cons, if_neg hk]
      exact ih h

/-- Updating the same key twice keeps only the second value. -/
theorem updateActivity_updateActivity (reg : Registry) (n : String) (a a' : Activity) :
    updateActivity (updateActivity reg n a) n a' = updateActivity reg n a' := by
  induction reg with
  | nil => rfl
  | cons p rest ih =>
    obtain ⟨k, v⟩ := p
    rw [updateActivity_cons]
    by_cases hk : (k == n) = true
    · rw [if_pos hk, updateActivity_cons, if_pos hk, updateActivity_cons, if_pos hk]
    · rw [if_neg hk, updateActivity_cons, if_neg hk, updateActivity_cons, if_neg hk, ih]

/-- Writing back the value lookup just returned is a no-op. -/
theorem updateActivity_lookup_self {reg : Registry} {n : String} {a : Activity}
    (h : lookupActivity reg n = some a) : updateActivity reg n a = reg := by
  induction reg with
  | nil => rfl
  | cons p rest ih =>
    obtain ⟨k, v⟩ := p
    rw [lookupActivity_cons] at h
    rw [updateActivity_cons]
    by_cases hk : (k == n) = true
    · rw [if_pos hk] at h
      injection h with hva
      rw [if_pos hk, hva]
    · rw [if_neg hk] at h
      rw [if_neg hk, ih h]

/-- Erasing an email just appended to a roster that did not contain it
returns the old roster (`list.remove` drops the first occurrence). -/
theorem erase_append_singleton {l : List String} {e : String} (h : e ∉ l) :
    (l ++ [e]).erase e = l := by
  induction l with
  | nil => simp
  | cons a l' ih =>
    have hne : ¬ (a == e) = true := by
      simp only [beq_iff_eq]
      intro hae
      exact h (hae ▸ List.mem_cons_self a l')
    rw [List.cons_append, List.erase_cons_tail ?_, ih (fun hm => h (List.mem_cons_of_mem _ hm))]
    simpa using hne

/-- The endpoint `signup_for_activity` either raises (leaving the registry
untouched) or, when every check passes, appends the email to the looked-up
activity's roster and returns the confirmation message. -/
theorem signup_cases (reg : Registry) (n e : String) :
    (∃ err, signup_for_activity reg n e = (reg, Except.error err)) ∨
    ∃ a, lookupActivity reg n = some a ∧ validate_email e = true ∧
      a.participants.length < a.max_participants ∧ e ∉ a.participants ∧
      signup_for_activity reg n e =
        (updateActivity reg n { a with participants := a.participants ++ [e] },
         Except.ok ("Signed up " ++ e ++ " for " ++ n)) := by
  unfold signup_for_activity
  by_cases hv : validate_email e = true
  · rw [if_neg (by simp [hv])]
    cases hlk : lookupActivity reg n with
    | none => exact Or.inl ⟨ApiError.ActivityNotFound, rfl⟩
    | some a =>
      dsimp only
      by_cases hcap : a.participants.length ≥ a.max_participants
      · rw [if_pos hcap]
        exact Or.inl ⟨ApiError.AtCapacity, rfl⟩
      · rw [if_neg hcap]
        by_cases hmem : e ∈ a.participants
        · rw [if_pos hmem]
          exact Or.inl ⟨ApiError.AlreadyEnrolled, rfl⟩
        · rw [if_neg hmem]
          exact Or.inr ⟨a, rfl, hv, lt_of_not_ge hcap, hmem, rfl⟩
  · rw [if_pos (by simpa using hv)]
    exact Or.inl ⟨ApiError.InvalidEmail, rfl⟩

/-- The endpoint `unregister_from_activity` either raises (leaving the
registry untouched) or, when every check passes, erases the first occurrence
of the email from the looked-up activity's roster and returns the
confirmation message. -/
theorem unregister_cases (reg : Registry) (n e : String) :
    (∃ err, unregister_from_activity reg n e = (reg, Except.error err)) ∨
    ∃ a, lookupActivity reg n = some a ∧ validate_email e = true ∧
      e ∈ a.participants ∧
      unregister_from_activity reg n e =
        (updateActivity reg n { a with participants := a.participants.erase e },
         Except.ok ("Unregistered " ++ e ++ " from " ++ n)) := by
  unfold unregister_from_activity
  by_cases hv : validate_email e = true
  · rw [if_neg (by simp [hv])]
    cases hlk : lookupActivity reg n with
    | none => exact Or.inl ⟨ApiError.ActivityNotFound, rfl⟩
    | some a =>
      dsimp only
      by_cases hmem : e ∈ a.participants
      · rw [if_neg (fun hn => hn hmem)]
        exact Or.inr ⟨a, rfl, hv, hmem, rfl⟩
      · rw [if_pos hmem]
        exact Or.inl ⟨ApiError.NotEnrolled, rfl⟩
  · rw [if_pos (by simpa using hv)]
    exact Or.inl ⟨ApiError.InvalidEmail, rfl⟩

theorem capacityOk_applyOp {reg : Registry} (h : CapacityOk reg) (op : Op) :
    CapacityOk (applyOp reg op) := by
  cases op with
  | signup n e =>
    show CapacityOk (signup_for_activity reg n e).1
    rcases signup_cases reg n e with ⟨err, heq⟩ | ⟨a, hlk, _, hcap, _, heq⟩
    · rw [heq]
      exact h
    · rw [heq]
      intro q hq
      rcases mem_updateActivity q hq with hmem | hval
      · exact h q hmem
      · rw [hval]
        simpa using hcap
  | unregister n e =>
    show CapacityOk (unregister_from_activity reg n e).1
    rcases unregister_cases reg n e with ⟨err, heq⟩ | ⟨a, hlk, _, _, heq⟩
    · rw [heq]
      exact h
    · rw [heq]
      intro q hq
      rcases mem_updateActivity q hq with hmem | hval
      · exact h q hmem
      · rw [hval]
        exact le_trans (List.Sublist.length_le (List.erase_sublist e a.participants))
          (h (n, a) (lookupActivity_mem hlk))

theorem capacityOk_runOps {reg : Registry} (h : CapacityOk reg) (ops : List Op) :
    CapacityOk (runOps reg ops) := by
  induction ops generalizing reg with
  | nil => exact h
  | cons op ops ih => exact ih (capacityOk_applyOp h op)

theorem noDupOk_applyOp {reg : Registry} (h : NoDupOk reg) (op : Op) :
    NoDupOk (applyOp reg op) := by
  cases op with
  | signup n e =>
    show NoDupOk (signup_for_activity reg n e).1
    rcases signup_cases reg n e with ⟨err, heq⟩ | ⟨a, hlk, _, _, hmem, heq⟩
    · rw [heq]
      exact h
    · rw [heq]
      intro q hq
      rcases mem_updateActivity q hq with hq' | hval
      · exact h q hq'
      · rw [hval]
        simp only [List.nodup_append, List.nodup_cons, List.nodup_nil]
        exact ⟨h (n, a) (lookupActivity_mem hlk), by simp,
          by simpa [List.disjoint_singleton] using hmem⟩
  | unregister n e =>
    show NoDupOk (unregister_from_activity reg n e).1
    rcases unregister_cases reg n e with ⟨err, heq⟩ | ⟨a, hlk, _, _, heq⟩
    · rw [heq]
      exact h
    · rw [heq]
      intro q hq
      rcases mem_updateActivity q hq with hq' | hval
      · exact h q hq'
      · rw [hval]
        exact List.Nodup.erase e (h (n, a) (lookupActivity_mem hlk))

theorem noDupOk_runOps {reg : Registry} (h : NoDupOk reg) (ops : List Op) :
    NoDupOk (runOps reg ops) := by
  induction ops generalizing reg with
  | nil => exact h
  | cons op ops ih => exact ih (noDupOk_applyOp h op)

/-- C1: starting from the seeded registry, after any finite sequence of
`signup_for_activity` and `unregister_from_activity` calls, every activity
satisfies `len(participants) <= max_participants`. -/
theorem capacity_invariant (ops : List Op) : CapacityOk (runOps activities ops) :=
  capacityOk_runOps (by unfold CapacityOk; decide) ops

/-- C2: starting from the seeded registry, after any finite sequence of
`signup_for_activity` and `unregister_from_activity` calls, no email occurs
more than once (case-sensitive exact match) in any activity's participants
list. -/
theorem no_duplicates_invariant (ops : List Op) : NoDupOk (runOps activities ops) :=
  noDupOk_runOps (by unfold NoDupOk; decide) ops

/-- C3: email validation happens first in both operations: whenever the email
fails the validator, `signup_for_activity` and `unregister_from_activity` each
fail with `InvalidEmail` (status 400, detail "Invalid email format"), whatever
the registry and the activity name — in particular `ActivityNotFound` is never
returned for an invalid email, even when the name is not a registry key. -/
theorem invalid_email_checked_first (reg : Registry) (n e : String)
    (h : validate_email e = false) :
    signup_for_activity reg n e = (reg, Except.error ApiError.InvalidEmail) ∧
    unregister_from_activity reg n e = (reg, Except.error ApiError.InvalidEmail) ∧
    ApiError.InvalidEmail.statusCode = 400 ∧
    ApiError.InvalidEmail.detail = "Invalid email format" := by
  unfold signup_for_activity unregister_from_activity
  rw [if_pos (by simp [h]), if_pos (by simp [h])]
  exact ⟨rfl, rfl, rfl, rfl⟩

/-- Witness for C3 at a concrete input: `"notanemail"` against the
nonexistent activity `"Not A Club"` in the seeded registry. -/
theorem invalid_email_checked_first_witness :
    validate_email "notanemail" = false ∧
    signup_for_activity activities "Not A Club" "notanemail" =
      (activities, Except.error ApiError.InvalidEmail) ∧
    unregister_from_activity activities "Not A Club" "notanemail" =
      (activities, Except.error ApiError.InvalidEmail) :=
  ⟨by decide,
   (invalid_email_checked_first activities "Not A Club" "notanemail" (by decide)).1,
   (invalid_email_checked_first activities "Not A Club" "notanemail" (by decide)).2.1⟩

/-- C4: the capacity check runs before the membership check, so when an
activity is at capacity and the valid email is already enrolled,
`signup_for_activity` fails with `AtCapacity` (status 400, detail
"Activity is at maximum capacity"), not `AlreadyEnrolled`. -/
theorem at_capacity_wins_over_already_enrolled (reg : Registry) (n e : String)
    (a : Activity) (hv : validate_email e = true)
    (hlk : lookupActivity reg n = some a)
    (hcap : a.max_participants ≤ a.participants.length)
    (_hmem : e ∈ a.participants) :
    signup_for_activity reg n e = (reg, Except.error ApiError.AtCapacity) ∧
    ApiError.AtCapacity.statusCode = 400 ∧
    ApiError.AtCapacity.detail = "Activity is at maximum capacity" := by
  unfold signup_for_activity
  rw [if_neg (by simp [hv]), hlk]
  dsimp only
  rw [if_pos hcap]
  exact ⟨rfl, rfl, rfl⟩

/-- Witness for C4 at a concrete input: the activity is at capacity and the
email is already enrolled, and the call fails with `AtCapacity`. -/
theorem at_capacity_wins_over_already_enrolled_witness :
    validate_email "michael@mergington.edu" = true ∧
    lookupActivity fullClubRegistry "Chess Club" = some fullChessClub ∧
    fullChessClub.max_participants ≤ fullChessClub.participants.length ∧
    "michael@mergington.edu" ∈ fullChessClub.participants ∧
    signup_for_activity fullClubRegistry "Chess Club" "michael@mergington.edu" =
      (fullClubRegistry, Except.error ApiError.AtCapacity) :=
  ⟨by decide, rfl, by decide, by decide,
   (at_capacity_wins_over_already_enrolled fullClubRegistry "Chess Club"
      "michael@mergington.edu" fullChessClub (by decide) rfl (by decide) (by decide)).1⟩

/-- C8: error atomicity: whenever `signup_for_activity` or
`unregister_from_activity` returns an error, the whole registry — every
activity and every participants list — is exactly the input registry. -/
theorem error_atomicity (reg : Registry) (n e : String) (err : ApiError) :
    ((signup_for_activity reg n e).2 = Except.error err →
      (signup_for_activity reg n e).1 = reg) ∧
    ((unregister_from_activity reg n e).2 = Except.error err →
      (unregister_from_activity reg n e).1 = reg) := by
  constructor
  · intro herr
    rcases signup_cases reg n e with ⟨err', heq⟩ | ⟨a, _, _, _, _, heq⟩
    · rw [heq]
    · rw [heq] at herr
      exact absurd herr (by simp)
  · intro herr
    rcases unregister_cases reg n e with ⟨err', heq⟩ | ⟨a, _, _, _, heq⟩
    · rw [heq]
    · rw [heq] at herr
      exact absurd herr (by simp)

/-- Witness for C8 at a concrete input: an invalid email leaves the seeded
registry untouched in both operations. -/
theorem error_atomicity_witness :
    (signup_for_activity activities "Soccer Team" "bad").1 = activities ∧
    (unregister_from_activity activities "Soccer Team" "bad").1 = activities :=
  ⟨(error_atomicity activities "Soccer Team" "bad" ApiError.InvalidEmail).1 rfl,
   (error_atomicity activities "Soccer Team" "bad" ApiError.InvalidEmail).2 rfl⟩

theorem frameOk_refl (name : String) (reg : Registry) : FrameOk name reg reg :=
  List.forall₂_same.mpr (fun _ _ => ⟨rfl, rfl, rfl, rfl, fun _ => rfl⟩)

theorem frameOk_keys {name : String} {reg reg' : Registry} (h : FrameOk name reg reg') :
    reg'.map Prod.fst = reg.map Prod.fst := by
  induction h with
  | nil => rfl
  | cons hpq _ ih => simp [List.map_cons, ih, hpq.1]

/-- Replacing the activity under `name` by one that differs only in its
participants list is a frame-respecting update. -/
theorem frameOk_updateActivity {reg : Registry} {n : String} {a : Activity}
    (a' : Activity) (hlk : lookupActivity reg n = some a)
    (hd : a'.description = a.description) (hs : a'.schedule = a.schedule)
    (hm : a'.max_participants = a.max_participants) :
    FrameOk n reg (updateActivity reg n a') := by
  induction reg with
  | nil => exact List.Forall₂.nil
  | cons p rest ih =>
    obtain ⟨k, v⟩ := p
    rw [lookupActivity_cons] at hlk
    rw [updateActivity_cons]
    by_cases hk : (k == n) = true
    · rw [if_pos hk] at hlk
      injection hlk with hva
      rw [if_pos hk]
      refine List.Forall₂.cons ⟨rfl, ?_, ?_, ?_, ?_⟩ (frameOk_refl n rest)
      · rw [hd, hva]
      · rw [hs, hva]
      · rw [hm, hva]
      · intro hne
        exact absurd (beq_iff_eq.mp hk) hne
    · rw [if_neg hk] at hlk
      rw [if_neg hk]
      exact List.Forall₂.cons ⟨rfl, rfl, rfl, rfl, fun _ => rfl⟩ (ih hlk)

/-- C9: frame property: any call (successful or not) keeps the list of
registry keys, keeps every activity's description, schedule and capacity, and
changes no participants list other than the named activity's. -/
theorem frame_property (reg : Registry) (n e : String) :
    ((signup_for_activity reg n e).1.map Prod.fst = reg.map Prod.fst ∧
      FrameOk n reg (signup_for_activity reg n e).1) ∧
    ((unregister_from_activity reg n e).1.map Prod.fst = reg.map Prod.fst ∧
      FrameOk n reg (unregister_from_activity reg n e).1) := by
  have h1 : FrameOk n reg (signup_for_activity reg n e).1 := by
    rcases signup_cases reg n e with ⟨err, heq⟩ | ⟨a, hlk, _, _, _, heq⟩
    · rw [heq]
      exact frameOk_refl n reg
    · rw [heq]
      exact frameOk_updateActivity _ hlk rfl rfl rfl
  have h2 : FrameOk n reg (unregister_from_activity reg n e).1 := by
    rcases unregister_cases reg n e with ⟨err, heq⟩ | ⟨a, hlk, _, _, heq⟩
    · rw [heq]
      exact frameOk_refl n reg
    · rw [heq]
      exact frameOk_updateActivity _ hlk rfl rfl rfl
  exact ⟨⟨frameOk_keys h1, h1⟩, ⟨frameOk_keys h2, h2⟩⟩

/-- C7: round trip: a successful `signup_for_activity` followed by
`unregister_from_activity` of the same email from the same activity succeeds
and restores the whole registry — in particular that activity's participants
list — to exactly its value before the enroll. -/
theorem enroll_withdraw_roundtrip (reg : Registry) (n e : String)
    (reg' : Registry) (m : String)
    (h : signup_for_activity reg n e = (reg', Except.ok m)) :
    unregister_from_activity reg' n e =
      (reg, Except.ok ("Unregistered " ++ e ++ " from " ++ n)) := by
  rcases signup_cases reg n e with ⟨err, heq⟩ | ⟨a, hlk, hv, _, hmem, heq⟩
  · rw [heq] at h
    injection h with h1 h2
    exact absurd h2 (by simp)
  · rw [heq] at h
    injection h with h1 h2
    subst h1
    unfold unregister_from_activity
    rw [if_neg (by simp [hv])]
    rw [lookupActivity_updateActivity_self _ hlk]
    dsimp only
    rw [if_neg (fun hn => hn (by simp))]
    have herase :
        ({ a with participants := a.participants ++ [e] } : Activity).participants.erase e
          = a.participants := erase_append_singleton hmem
    have ha : ({ a with participants :=
        ({ a with participants := a.participants ++ [e] } : Activity).participants.erase e }
          : Activity) = a := by
      rw [herase]
    rw [ha, updateActivity_updateActivity, updateActivity_lookup_self hlk]

/-- Witness for C7 at a concrete input: enrolling a new student in the seeded
`"Soccer Team"` then withdrawing them restores the seeded registry. -/
theorem enroll_withdraw_roundtrip_witness :
    unregister_from_activity
        (signup_for_activity activities "Soccer Team" "newstudent@mergington.edu").1
        "Soccer Team" "newstudent@mergington.edu" =
      (activities,
       Except.ok ("Unregistered " ++ "newstudent@mergington.edu" ++ " from " ++ "Soccer Team")) :=
  enroll_withdraw_roundtrip activities "Soccer Team" "newstudent@mergington.edu"
    (signup_for_activity activities "Soccer Team" "newstudent@mergington.edu").1
    ("Signed up " ++ "newstudent@mergington.edu" ++ " for " ++ "Soccer Team") rfl

/-- C5 counterexample: the claimed characterization — `validate_email`
accepts exactly the non-empty strings of length at most 254 matching the
pattern anchored at both the start and the very end of the string — fails at
`"alex@mergington.edu\n"`: the string is non-empty, well under 254 characters,
and does NOT match the pattern up to the very end of the string (its final
character is a newline), yet `validate_email` accepts it, because Python's `$`
also matches just before a string-final newline. -/
theorem validate_email_strict_anchor_counterexample :
    validate_email "alex@mergington.edu\n" = true ∧
    "alex@mergington.edu\n".data ≠ [] ∧
    "alex@mergington.edu\n".length ≤ 254 ∧
    ¬ EmailPatternSpec "alex@mergington.edu\n".data := by
  refine ⟨by decide, by decide, by decide, ?_⟩
  intro h
  exact absurd ((strictMatch_iff _).mpr h) (by decide)

/-- C5 amended: `validate_email s` returns true iff `s` is non-empty, has at
most 254 characters, and matches the pattern anchored at the start and at the
end — where, as for Python's `$` anchor, "at the end" means at the very end of
the string or just before a single string-final newline character. -/
theorem validate_email_characterization (s : String) :
    validate_email s = true ↔
      s.data ≠ [] ∧ s.length ≤ 254 ∧
        (EmailPatternSpec s.data ∨
          (s.data.getLast? = some '\n' ∧ EmailPatternSpec s.data.dropLast)) := by
  unfold validate_email EMAIL_PATTERN_match
  by_cases hlen : s.length = 0 ∨ s.length > 254
  · rw [if_pos hlen]
    constructor
    · intro h
      exact absurd h (by simp)
    · rintro ⟨hne, hle, _⟩
      rcases hlen with h0 | hgt
      · exact (hne (List.eq_nil_of_length_eq_zero h0)).elim
      · omega
  · rw [if_neg hlen]
    push_neg at hlen
    simp only [Bool.or_eq_true, Bool.and_eq_true, beq_iff_eq, strictMatch_iff]
    constructor
    · intro h
      refine ⟨?_, hlen.2, h⟩
      intro hnil
      apply hlen.1
      show s.data.length = 0
      rw [hnil]
      rfl
    · rintro ⟨_, _, h⟩
      exact h

/-- Witness for the amended C5 at a concrete input: evaluating the
characterization at `"a@b.cc"`. -/
theorem validate_email_characterization_witness :
    "a@b.cc".data ≠ [] ∧ "a@b.cc".length ≤ 254 ∧
      (EmailPatternSpec "a@b.cc".data ∨
        ("a@b.cc".data.getLast? = some '\n' ∧ EmailPatternSpec "a@b.cc".data.dropLast)) :=
  (validate_email_characterization "a@b.cc").mp (by decide)

/-- C6: the validator is permissive of dot edge cases: consecutive, leading,
or trailing dots in the local part or domain are all accepted, because they
satisfy the pattern's character classes. -/
theorem validate_email_permissive_dots :
    validate_email "user..name@domain.com" = true ∧
    validate_email ".user@domain.com" = true ∧
    validate_email "user.@domain.com" = true ∧
    validate_email "user@.domain.com" = true ∧
    validate_email "user@domain..com" = true := by
  refine ⟨?_, ?_, ?_, ?_, ?_⟩ <;> decide

/-- C10: a pattern-matching email followed by a single trailing newline is
accepted by `validate_email` — Python's `$` anchor also matches immediately
before a string-final newline — so the validator is not strictly anchored to
the very end of the string. -/
theorem validate_email_trailing_newline :
    EmailPatternSpec "user@mergington.edu".data ∧
    validate_email "user@mergington.edu\n" = true ∧
    ¬ EmailPatternSpec "user@mergington.edu\n".data := by
  refine ⟨(strictMatch_iff _).mp (by decide), by decide, ?_⟩
  intro h
  exact absurd ((strictMatch_iff _).mpr h) (by decide)

end MergingtonApp
